import Mathlib

/-!
Verification of the Telegram-Notifier repository (Go) against its
natural-language specification.

Modelling conventions:
- A Go `string` is modelled as `List Char`, one `Char` per byte (all inputs of
  interest are ASCII, where Go bytes and characters coincide; bytes `0x80-0xFF`
  are represented by the `Char` with that code point).  Go `len` is
  `List.length`, Go slicing is `take`/`drop`.
- Go `float64` is modelled as `ℚ` (the token-bucket arithmetic of the claims is
  exact, so rounding plays no role).
- Go regular expressions are modelled by a small backtracking engine with
  leftmost, priority-first (Perl-style) matching, the semantics of Go's
  `regexp` package, over an explicit syntax tree transcribed from each
  pattern literal.  The anchored service-name pattern is modelled with
  Mathlib's `RegularExpression` (whole-string acceptance).
- Fallible Go code returns `Option`; a Go panic (out-of-range slice) is `none`.
-/

namespace TelegramNotifier

/-- Convert a Lean string literal to the byte-list model of a Go string. -/
def gs (s : String) : List Char := s.toList

/-! ### Go `strings` primitives (package strings) -/

/-- `strings.HasPrefix s pre`. -/
def strStarts : List Char → List Char → Bool
  | _, [] => true
  | [], _ :: _ => false
  | c :: s, d :: p => c = d && strStarts s p

/-- Helper for `strIndex`: first index at or after `i` where `sub` occurs. -/
def strIndexAux (sub : List Char) : List Char → Nat → Option Nat
  | [], i => if strStarts [] sub then some i else none
  | c :: rest, i =>
    if strStarts (c :: rest) sub then some i else strIndexAux sub rest (i + 1)

/-- `strings.Index s sub`: index of the first occurrence (`none` for Go -1). -/
def strIndex (s sub : List Char) : Option Nat := strIndexAux sub s 0

/-- `strings.Contains s sub`. -/
def strContains (s sub : List Char) : Bool := (strIndex s sub).isSome

/-- Helper for `strLastIndex`. -/
def strLastIndexAux (sub : List Char) : List Char → Nat → Option Nat → Option Nat
  | [], i, acc => if strStarts [] sub then some i else acc
  | c :: rest, i, acc =>
    strLastIndexAux sub rest (i + 1)
      (if strStarts (c :: rest) sub then some i else acc)

/-- `strings.LastIndex s sub`: index of the last occurrence (`none` for -1). -/
def strLastIndex (s sub : List Char) : Option Nat := strLastIndexAux sub s 0 none

/-- `strings.Count s sub` for a single-character `sub` (the only use in the
source is `strings.Count(beforeColon, " ")`): number of occurrences of the
character. -/
def charCount (c : Char) (s : List Char) : Nat :=
  (s.filter (fun x => x = c)).length

/-- `unicode.IsSpace` restricted to the byte model (ASCII whitespace plus the
two Latin-1 space code points Go also accepts). -/
def isSpaceGo (c : Char) : Bool :=
  c = ' ' || c = '\t' || c = '\n' || c = '\x0b' || c = '\x0c' || c = '\r' ||
  c.toNat = 0x85 || c.toNat = 0xA0

/-- Helper for `goFields` (accumulator holds the current field reversed). -/
def goFieldsAux : List Char → List Char → List (List Char)
  | [], cur => if cur = [] then [] else [cur.reverse]
  | c :: rest, cur =>
    if isSpaceGo c then
      if cur = [] then goFieldsAux rest [] else cur.reverse :: goFieldsAux rest []
    else goFieldsAux rest (c :: cur)

/-- `strings.Fields s`: split around runs of whitespace. -/
def goFields (s : List Char) : List (List Char) := goFieldsAux s []

/-- Helper for `goSplitNl`. -/
def splitNlAux : List Char → List Char → List (List Char)
  | [], cur => [cur.reverse]
  | c :: rest, cur =>
    if c = '\n' then cur.reverse :: splitNlAux rest []
    else splitNlAux rest (c :: cur)

/-- `strings.Split s "\n"`. -/
def goSplitNl (s : List Char) : List (List Char) := splitNlAux s []

/-! ### Log classifier (internal/systemd/journal.go) -/

/-- `JournalOutput` (journal.go): parsed journal logs and command output.
`StartTime` is never written by the classification code and is omitted. -/
structure JournalOutput where
  systemdLogs : List (List Char)
  executionResults : List (List Char)
deriving Repr, DecidableEq

/-- The four pieces of scan state threaded through `processJournalLine` in
`GetCurrentExecutionLogs` (journal.go lines 50-57). -/
structure JState where
  out : JournalOutput
  foundStart : Bool
  lastProcessName : List Char
  inCommandOutput : Bool
deriving Repr, DecidableEq

/-- `extractProcessName` (journal.go): text between the last space before `[`
and the following `]:`. -/
def extractProcessName (line : List Char) : List Char :=
  match strIndex line (gs "[") with
  | some idx =>
    if 0 < idx then
      let beforeBracket := line.take idx
      match strLastIndex beforeBracket (gs " ") with
      | some lastSpace =>
        let processName := beforeBracket.drop (lastSpace + 1)
        match strIndex (line.drop idx) (gs "]:") with
        | some endIdx => if 0 < endIdx then processName else []
        | none => []
      | none => []
    else []
  | none => []

/-- The indented-continuation fallback at the end of `extractMessage`. -/
def contLine (line : List Char) : Bool :=
  strStarts line (gs "  ") || strStarts line (gs "\t")

/-- The `parts := strings.Fields(line)` branch inside `extractMessage`
(journal.go lines 313-323); `none` means the Go code falls through. -/
def fieldsBranch (line : List Char) : Option (List Char) :=
  let parts := goFields line
  if h : 3 < parts.length then
    match strIndex line parts[3] with
    | some msgStart =>
      let remaining := line.drop msgStart
      match strIndex remaining (gs ": ") with
      | some colonIdx => some (remaining.drop (colonIdx + 2))
      | none => none
    | none => none
  else none

/-- `extractMessage` (journal.go): message content of a journal line. -/
def extractMessage (line : List Char) : List Char :=
  if line = [] then []
  else
    match strIndex line (gs "]: ") with
    | some idx => line.drop (idx + 3)
    | none =>
      match strIndex line (gs ": ") with
      | some idx =>
        let beforeColon := line.take idx
        if 3 ≤ charCount ' ' beforeColon then
          match fieldsBranch line with
          | some r => r
          | none => if contLine line then line else []
        else line
      | none => if contLine line then line else []

/-- The closed set of lifecycle keywords tested by `processJournalLine`. -/
def lifecycleMsg (msg : List Char) : Bool :=
  strContains msg (gs "Starting") || strContains msg (gs "Started") ||
  strContains msg (gs "Finished") || strContains msg (gs "Failed") ||
  strContains msg (gs "Deactivated")

/-- `processJournalLine` (journal.go lines 234-280): parse one journal line and
categorize it, mutating the scan state. -/
def processJournalLine (serviceName : List Char) (st : JState) (line : List Char) :
    JState :=
  if strStarts line (gs "-- ") || strContains line (gs "telegram-notifier") then st
  else if strContains line (gs "Starting") && strContains line serviceName then
    { out := ⟨[], []⟩, foundStart := true, lastProcessName := [],
      inCommandOutput := false }
  else if !st.foundStart then st
  else
    let processName := extractProcessName line
    let msg := extractMessage line
    if processName = gs "systemd" || strContains processName (gs "systemd[") then
      if lifecycleMsg msg then
        { st with out := { st.out with systemdLogs := st.out.systemdLogs ++ [msg] },
                  inCommandOutput := false }
      else st
    else if processName ≠ [] && processName ≠ gs "systemd" then
      if msg = [] && st.inCommandOutput then
        { st with
          out := { st.out with executionResults := st.out.executionResults ++ [[]] },
          lastProcessName := processName }
      else if msg ≠ [] then
        { st with
          out := { st.out with executionResults := st.out.executionResults ++ [msg] },
          inCommandOutput := true, lastProcessName := processName }
      else { st with lastProcessName := processName }
    else if st.lastProcessName ≠ [] && st.lastProcessName ≠ gs "systemd" then
      { st with
        out := { st.out with executionResults := st.out.executionResults ++ [msg] },
        inCommandOutput := true }
    else st

/-- The classification loop of `GetCurrentExecutionLogs` (journal.go lines
50-57): split the raw journal text into lines and fold `processJournalLine`
over them.  `invocationScoped` is `invocationID != ""`: with an invocation
identifier the window is already scoped, so `foundStart` begins `true`. -/
def classifyJournal (raw serviceName : List Char) (invocationScoped : Bool) :
    JournalOutput :=
  ((goSplitNl raw).foldl (processJournalLine serviceName)
    ⟨⟨[], []⟩, invocationScoped, [], false⟩).out

/-! ### Constants (internal/constants/constants.go) -/

def TelegramMaxMessageSize : Nat := 4096

def MaxHTTPRetries : Nat := 3

def OutputTruncatedMsg : List Char := gs "...(output truncated)\n\n"

/-! ### UTF-8 validity (unicode/utf8, used by strings.ToValidUTF8) -/

/-- Byte value of a model character. -/
def bval (c : Char) : Nat := c.toNat

/-- UTF-8 continuation byte `10xxxxxx`. -/
def isCont (c : Char) : Bool := 0x80 ≤ bval c && bval c ≤ 0xBF

/-- Size of the well-formed UTF-8 encoding starting at the head of the byte
list, or `none` if the head starts no well-formed encoding.  This is the
`utf8.DecodeRune` acceptance condition: overlong encodings, surrogates and
code points above U+10FFFF are rejected. -/
def utf8Size : List Char → Option Nat
  | [] => none
  | c :: rest =>
    let b := bval c
    if b < 0x80 then some 1
    else if 0xC2 ≤ b && b ≤ 0xDF then
      match rest with
      | c2 :: _ => if isCont c2 then some 2 else none
      | [] => none
    else if b = 0xE0 then
      match rest with
      | c2 :: c3 :: _ =>
        if (0xA0 ≤ bval c2 && bval c2 ≤ 0xBF) && isCont c3 then some 3 else none
      | _ => none
    else if (0xE1 ≤ b && b ≤ 0xEC) || b = 0xEE || b = 0xEF then
      match rest with
      | c2 :: c3 :: _ => if isCont c2 && isCont c3 then some 3 else none
      | _ => none
    else if b = 0xED then
      match rest with
      | c2 :: c3 :: _ =>
        if (0x80 ≤ bval c2 && bval c2 ≤ 0x9F) && isCont c3 then some 3 else none
      | _ => none
    else if b = 0xF0 then
      match rest with
      | c2 :: c3 :: c4 :: _ =>
        if (0x90 ≤ bval c2 && bval c2 ≤ 0xBF) && (isCont c3 && isCont c4) then
          some 4
        else none
      | _ => none
    else if 0xF1 ≤ b && b ≤ 0xF3 then
      match rest with
      | c2 :: c3 :: c4 :: _ =>
        if isCont c2 && (isCont c3 && isCont c4) then some 4 else none
      | _ => none
    else if b = 0xF4 then
      match rest with
      | c2 :: c3 :: c4 :: _ =>
        if (0x80 ≤ bval c2 && bval c2 ≤ 0x8F) && (isCont c3 && isCont c4) then
          some 4
        else none
      | _ => none
    else none

/-- UTF-8 encoding of U+FFFD, the replacement string passed to
`strings.ToValidUTF8` in `TruncateMessage`. -/
def replacementBytes : List Char := [Char.ofNat 0xEF, Char.ofNat 0xBF, Char.ofNat 0xBD]

/-- Fuelled worker for `toValidUTF8`.  `invalid` records whether the scan is
inside a run of invalid bytes: Go emits one replacement per maximal run. -/
def toValidUTF8Aux : Nat → Bool → List Char → List Char
  | 0, _, _ => []
  | _ + 1, _, [] => []
  | fuel + 1, invalid, c :: rest =>
    match utf8Size (c :: rest) with
    | some n => (c :: rest).take n ++ toValidUTF8Aux fuel false ((c :: rest).drop n)
    | none => (if invalid then [] else replacementBytes) ++ toValidUTF8Aux fuel true rest

/-- `strings.ToValidUTF8 s "�"`. -/
def toValidUTF8 (s : List Char) : List Char := toValidUTF8Aux (s.length + 1) false s

/-- Fuelled worker for `validUTF8`. -/
def validUTF8Aux : Nat → List Char → Bool
  | 0, _ => false
  | _ + 1, [] => true
  | fuel + 1, c :: rest =>
    match utf8Size (c :: rest) with
    | some n => validUTF8Aux fuel ((c :: rest).drop n)
    | none => false

/-- `utf8.ValidString`: the byte list is well-formed UTF-8. -/
def validUTF8 (s : List Char) : Bool := validUTF8Aux (s.length + 1) s

/-! ### Message size and truncation (internal/validation/validation.go) -/

/-- Go slice `s[:i]` with an `int` bound; `none` models the runtime panic when
the bound is out of range. -/
def goSliceTo (s : List Char) (i : ℤ) : Option (List Char) :=
  if 0 ≤ i ∧ i ≤ (s.length : ℤ) then some (s.take i.toNat) else none

/-- Go slice `s[i:]` with an `int` bound; `none` models the runtime panic. -/
def goSliceFrom (s : List Char) (i : ℤ) : Option (List Char) :=
  if 0 ≤ i ∧ i ≤ (s.length : ℤ) then some (s.drop i.toNat) else none

/-- `TruncateMessage` (validation.go lines 149-166).  `maxSize` is a Go `int`,
modelled as `ℤ`; `none` is the panic of a negative-bound slice. -/
def TruncateMessage (msg : List Char) (maxSize : ℤ) : Option (List Char) :=
  if (msg.length : ℤ) ≤ maxSize then some msg
  else
    let truncMsg := OutputTruncatedMsg
    let availableSize : ℤ := maxSize - truncMsg.length
    if availableSize ≤ 0 then goSliceTo msg maxSize
    else
      match goSliceFrom msg ((msg.length : ℤ) - availableSize) with
      | some tail => some (toValidUTF8 (truncMsg ++ tail))
      | none => none

/-- Error result of `ValidateMessageSize`. -/
inductive SizeErr where
  | tooLarge (size : Nat)
deriving Repr, DecidableEq

/-- `ValidateMessageSize` (validation.go lines 169-174). -/
def ValidateMessageSize (msg : List Char) : Option SizeErr :=
  if TelegramMaxMessageSize < msg.length then some (.tooLarge msg.length) else none

/-! ### Service-name validation (validation.go lines 15-50) -/

/-- Error results of `ValidateServiceName`, one per early return. -/
inductive NameErr where
  | empty
  | tooLong
  | controlChar
  | nonAscii
  | dangerousChar (c : Char)
  | badFormat
deriving Repr, DecidableEq

/-- `unicode.IsControl` on the byte model: the Cc category is U+0000-U+001F
and U+007F-U+009F. -/
def isControlGo (c : Char) : Bool :=
  bval c < 0x20 || (0x7F ≤ bval c && bval c ≤ 0x9F)

/-- The `dangerousChars` list of `ValidateServiceName` (validation.go line 39).
Backquote and the two curly brackets are written via `Char.ofNat`. -/
def dangerousChars : List Char :=
  ['$', Char.ofNat 0x60, '|', ';', '&', '\\', '\n', '\r', '<', '>', '(', ')',
   Char.ofNat 0x7B, Char.ofNat 0x7D, '[', ']', '!', '*', '?', '~']

/-- The characters admitted by the class `[a-zA-Z0-9:_.@-]` of
`constants.ServiceNamePattern`. -/
def allowedChars : List Char :=
  (List.range 26).map (fun i => Char.ofNat (0x61 + i)) ++
  (List.range 26).map (fun i => Char.ofNat (0x41 + i)) ++
  (List.range 10).map (fun i => Char.ofNat (0x30 + i)) ++
  [':', '_', '.', '@', '-']

/-- A finite character class as a regular expression: the alternation of its
members. -/
def chClass (cs : List Char) : RegularExpression Char :=
  (cs.map RegularExpression.char).foldr (· + ·) 0

/-- A string literal as a regular expression. -/
def litRE (s : List Char) : RegularExpression Char :=
  (s.map RegularExpression.char).foldr (· * ·) 1

/-- `constants.ServiceNamePattern`, the Go pattern
`^[a-zA-Z0-9:_.@-]+\.service$`.  Both anchors are present, so
`MatchString` is whole-string acceptance, modelled by `rmatch`. -/
def serviceNameRE : RegularExpression Char :=
  (chClass allowedChars * (chClass allowedChars).star) * litRE (gs ".service")

/-- The per-rune test of the control-character loop (validation.go line 25):
`r == 0 || r == '\n' || r == '\r' || unicode.IsControl(r)`. -/
def badControl (r : Char) : Bool :=
  r.toNat = 0 || r = '\n' || r = '\r' || isControlGo r

/-- The per-rune test of the ASCII loop (validation.go line 32): `r > 127`. -/
def nonAsciiCh (r : Char) : Bool := decide (127 < r.toNat)

/-- `ValidateServiceName` (validation.go lines 15-50): the checks in source
order, returning the first error. -/
def ValidateServiceName (name : List Char) : Option NameErr :=
  if name = [] then some .empty
  else if 256 < name.length then some .tooLong
  else if name.any badControl then some .controlChar
  else if name.any nonAsciiCh then some .nonAscii
  else
    match dangerousChars.find? (fun d => name.contains d) with
    | some d => some (.dangerousChar d)
    | none => if serviceNameRE.rmatch name then none else some .badFormat

/-! ### Token bucket (internal/ratelimit, config.go companion file)

Go `float64` fields are modelled as `ℚ`; `time.Time`/`time.Duration` values
are modelled as rational numbers of seconds. -/

structure TokenBucket where
  tokens : ℚ
  maxTokens : ℚ
  refillRate : ℚ
  lastRefill : ℚ
deriving Repr, DecidableEq

/-- `NewTokenBucket(maxTokens int, refillRate time.Duration)` at creation time
`now`; `refillRate` is passed as its length in seconds, and the stored rate is
`1.0 / refillRate.Seconds()`. -/
def NewTokenBucket (maxTokens : ℤ) (refillRateSeconds : ℚ) (now : ℚ) : TokenBucket :=
  { tokens := (maxTokens : ℚ)
    maxTokens := (maxTokens : ℚ)
    refillRate := 1 / refillRateSeconds
    lastRefill := now }

/-- `refill` (ratelimit): add tokens for the elapsed time, cap at capacity,
and advance the refill timestamp. -/
def refill (tb : TokenBucket) (now : ℚ) : TokenBucket :=
  let elapsed := now - tb.lastRefill
  let t := tb.tokens + elapsed * tb.refillRate
  { tb with
    tokens := if tb.maxTokens < t then tb.maxTokens else t
    lastRefill := now }

/-- `tryTake` (ratelimit): refill lazily, then deduct one token if at least
one is available. -/
def tryTake (tb : TokenBucket) (now : ℚ) : Bool × TokenBucket :=
  let tb2 := refill tb now
  if 1 ≤ tb2.tokens then (true, { tb2 with tokens := tb2.tokens - 1 })
  else (false, tb2)

/-- An operation on the bucket together with the wall-clock instant at which
it runs. -/
inductive BucketOp where
  | refillOp (now : ℚ)
  | tryTakeOp (now : ℚ)

/-- The instant at which an operation runs. -/
def opTime : BucketOp → ℚ
  | .refillOp now => now
  | .tryTakeOp now => now

/-- Apply one operation to the bucket. -/
def bucketStep (tb : TokenBucket) : BucketOp → TokenBucket
  | .refillOp now => refill tb now
  | .tryTakeOp now => (tryTake tb now).2

/-- Run a sequence of operations. -/
def bucketRun (tb : TokenBucket) (ops : List BucketOp) : TokenBucket :=
  ops.foldl bucketStep tb

/-- Wall-clock validity: each operation runs no earlier than the previous
refill instant (elapsed time is never negative). -/
def TimesValid : ℚ → List BucketOp → Prop
  | _, [] => True
  | t, op :: rest => t ≤ opTime op ∧ TimesValid (opTime op) rest

/-! ### Delivery client (internal/telegram, src/unnamed/part_001) -/

/-- Result of one `sendRequest` call: nil error, an `HTTPError` carrying the
non-200 status and the decoded description, or a transport-level error. -/
inductive NetResult where
  | ok
  | httpErr (status : Nat) (msg : List Char)
  | netErr (msg : List Char)
deriving Repr, DecidableEq

/-- `isClientError` (part_001 lines 169-175): true only for an `HTTPError`
whose status lies in [400, 500). -/
def isClientError : NetResult → Bool
  | .httpErr st _ => decide (400 ≤ st ∧ st < 500)
  | _ => false

/-- Outcome of `SendNotification`, one constructor per return path. -/
inductive SendOutcome where
  | success
  | ctxCancelled
  | validationFailed (e : SizeErr)
  | rateLimitFailed
  | requestFailed (e : NetResult)
  | retriesExhausted (lastErr : NetResult)
deriving Repr, DecidableEq

/-- The retry loop of `SendNotification` (part_001 lines 73-97).  `attempt` is
the loop counter, `budget` the remaining iterations (the loop runs for
`attempt = 0 .. MaxHTTPRetries`), `lastErr` the error seen so far.  Returns
the outcome and the number of `sendRequest` calls made. -/
def retryLoop (responses : Nat → NetResult) : Nat → Nat → NetResult → SendOutcome × Nat
  | _, 0, lastErr => (.retriesExhausted lastErr, 0)
  | attempt, budget + 1, _ =>
    match responses attempt with
    | .ok => (.success, 1)
    | e =>
      if isClientError e then (.requestFailed e, 1)
      else
        let r := retryLoop responses (attempt + 1) budget e
        (r.1, r.2 + 1)

/-- `SendNotification` (part_001 lines 55-98).  `ctxDone` models a context
already cancelled on entry; `rateOk` models whether `rateLimiter.Wait`
returns nil; `responses i` is the outcome of the i-th `sendRequest` call.
Returns the outcome, whether the rate limiter was consulted, and the number
of network calls made. -/
def SendNotification (ctxDone : Bool) (message : List Char) (rateOk : Bool)
    (responses : Nat → NetResult) : SendOutcome × Bool × Nat :=
  if ctxDone then (.ctxCancelled, false, 0)
  else
    match ValidateMessageSize message with
    | some e => (.validationFailed e, false, 0)
    | none =>
      if !rateOk then (.rateLimitFailed, true, 0)
      else
        let r := retryLoop responses 0 (MaxHTTPRetries + 1) (.netErr [])
        (r.1, true, r.2)

/-! ### Backtracking regex engine for the secret patterns

Go `regexp` (non-POSIX mode) matches at the leftmost possible position and,
among the matches there, commits to the one a backtracking search finds
first: alternatives are tried left to right and repetition is greedy.
`rxRems r s` enumerates, in that priority order, the suffixes of `s` left
over after `r` matches a prefix of `s`; the head is the match Go commits
to.  Character classes are predicates on the byte model.  The fuel bounds
star unfolding; a star iteration never matches the empty string (Go makes
no progress on empty iterations), so `s.length + 1` fuel is always enough. -/

inductive Rx where
  | eps
  | cls (p : Char → Bool)
  | alt (r1 r2 : Rx)
  | cat (r1 r2 : Rx)
  | star (r : Rx)

/-- Syntactic size of a pattern, used to choose a sufficient fuel. -/
def rxSize : Rx → Nat
  | .eps => 1
  | .cls _ => 1
  | .alt r1 r2 => rxSize r1 + rxSize r2 + 1
  | .cat r1 r2 => rxSize r1 + rxSize r2 + 1
  | .star r => rxSize r + 1

/-- Suffixes remaining after `r` matches a prefix of `s`, in backtracking
priority order.  The fuel decreases on every recursive call (so the
definition is structural and kernel-reducible); the recursion depth is
bounded by the pattern nesting depth plus one star iteration per consumed
character, so `rxFuel` below is always sufficient. -/
def rxRems : Nat → Rx → List Char → List (List Char)
  | 0, _, _ => []
  | _ + 1, .eps, s => [s]
  | _ + 1, .cls _, [] => []
  | _ + 1, .cls p, c :: rest => if p c then [rest] else []
  | fuel + 1, .alt r1 r2, s => rxRems fuel r1 s ++ rxRems fuel r2 s
  | fuel + 1, .cat r1 r2, s =>
    (rxRems fuel r1 s).flatMap (fun rem => rxRems fuel r2 rem)
  | fuel + 1, .star r, s =>
    ((rxRems fuel r s).filter (fun rem => rem.length < s.length)).flatMap
      (fun rem => rxRems fuel (.star r) rem) ++ [s]

/-- A fuel value large enough for `rxRems r` on `s` and all its suffixes. -/
def rxFuel (r : Rx) (s : List Char) : Nat := (rxSize r + 1) * (s.length + 2)

/-- Leftmost match of `r` in `s`: the first position admitting a match, with
the priority-first match length there (`strings` index and byte length). -/
def rxFind (fuel : Nat) (r : Rx) : List Char → Option (Nat × Nat)
  | [] =>
    match rxRems fuel r [] with
    | rem :: _ => some (0, 0 - rem.length)
    | [] => none
  | c :: rest =>
    match rxRems fuel r (c :: rest) with
    | rem :: _ => some (0, (c :: rest).length - rem.length)
    | [] => (rxFind fuel r rest).map (fun p => (p.1 + 1, p.2))

/-- Does some substring of `s` match `r`? (`regexp.MatchString` for an
unanchored pattern.) -/
def rxContainsMatch (r : Rx) (s : List Char) : Bool :=
  (rxFind (rxFuel r s) r s).isSome

/-- Fuelled worker for `regexp.ReplaceAllStringFunc`: repeatedly find the
leftmost match in the not-yet-scanned rest, emit the unmatched gap and the
replacement `f match`, and continue after the match.  An empty match emits
its replacement and the scan advances one character. -/
def replaceAllAux (r : Rx) (f : List Char → List Char) : Nat → List Char → List Char
  | 0, s => s
  | fuel + 1, s =>
    match rxFind (rxFuel r s) r s with
    | none => s
    | some (i, n) =>
      if n = 0 then
        match s.drop i with
        | [] => s.take i ++ f []
        | c :: rest => s.take i ++ f [] ++ [c] ++ replaceAllAux r f fuel rest
      else
        s.take i ++ f ((s.drop i).take n) ++ replaceAllAux r f fuel (s.drop (i + n))

/-- `r.ReplaceAllStringFunc(s, f)`. -/
def replaceAllStringFunc (r : Rx) (f : List Char → List Char) (s : List Char) :
    List Char :=
  replaceAllAux r f (s.length + 1) s

/-- Fuelled worker for `rxSegments`: the same scan as `replaceAllAux`, but
recording the decomposition of `s` into unmatched gaps (`inl`) and matches
(`inr`) instead of building the output string. -/
def segmentsAux (r : Rx) : Nat → List Char → List (List Char ⊕ List Char)
  | 0, s => [.inl s]
  | fuel + 1, s =>
    match rxFind (rxFuel r s) r s with
    | none => [.inl s]
    | some (i, n) =>
      if n = 0 then
        match s.drop i with
        | [] => [.inl (s.take i), .inr []]
        | c :: rest => .inl (s.take i) :: .inr [] :: .inl [c] :: segmentsAux r fuel rest
      else
        .inl (s.take i) :: .inr ((s.drop i).take n) :: segmentsAux r fuel (s.drop (i + n))

/-- The gap/match decomposition of `s` induced by the replace-all scan. -/
def rxSegments (r : Rx) (s : List Char) : List (List Char ⊕ List Char) :=
  segmentsAux r (s.length + 1) s

/-! ### Pattern construction helpers -/

/-- A literal character. -/
def rxChar (c : Char) : Rx := .cls (fun x => x = c)

/-- A literal character under the `(?i)` flag (ASCII case folding). -/
def rxIChar (c : Char) : Rx := .cls (fun x => x.toLower = c.toLower)

/-- A literal string. -/
def rxStr (s : List Char) : Rx := s.foldr (fun c r => .cat (rxChar c) r) .eps

/-- A literal string under `(?i)`. -/
def rxIStr (s : List Char) : Rx := s.foldr (fun c r => .cat (rxIChar c) r) .eps

/-- An alternation `a|b|...`, left to right (Go tries alternatives in this
order). -/
def rxAlts : List Rx → Rx
  | [] => .cls (fun _ => false)
  | [r] => r
  | r :: rest => .alt r (rxAlts rest)

/-- `r+` (greedy). -/
def rxPlus (r : Rx) : Rx := .cat r (.star r)

/-- `r?` (greedy: the present branch is tried first). -/
def rxOpt (r : Rx) : Rx := .alt r .eps

/-- Exactly `n` copies of `r`. -/
def rxRep : Nat → Rx → Rx
  | 0, _ => .eps
  | n + 1, r => .cat r (rxRep n r)

/-- `r{n,}` (greedy). -/
def rxAtLeast (n : Nat) (r : Rx) : Rx := .cat (rxRep n r) (.star r)

/-- `r{0,n}` (greedy: longer repetitions are tried first). -/
def rxUpTo : Nat → Rx → Rx
  | 0, _ => .eps
  | n + 1, r => .alt (.cat r (rxUpTo n r)) .eps

/-- `r{lo,hi}` (greedy). -/
def rxRange (lo hi : Nat) (r : Rx) : Rx := .cat (rxRep lo r) (rxUpTo (hi - lo) r)

/-- RE2 `\s`, the class `[\t\n\f\r ]`. -/
def wsRe2 (c : Char) : Bool :=
  c = '\t' || c = '\n' || c = '\x0c' || c = '\r' || c = ' '

/-- `a-z`. -/
def isLowerCh (c : Char) : Bool := 0x61 ≤ c.toNat && c.toNat ≤ 0x7A

/-- `A-Z`. -/
def isUpperCh (c : Char) : Bool := 0x41 ≤ c.toNat && c.toNat ≤ 0x5A

/-- `0-9`. -/
def isDigitCh (c : Char) : Bool := 0x30 ≤ c.toNat && c.toNat ≤ 0x39

/-- `a-zA-Z0-9`. -/
def isAlnumCh (c : Char) : Bool := isLowerCh c || isUpperCh c || isDigitCh c

/-! ### The secret patterns (internal/constants/constants.go lines 59-99) -/

/-- `[\s:=]`. -/
def clsAssign : Rx := .cls (fun c => wsRe2 c || c = ':' || c = '=')

/-- `['"]`. -/
def clsQuote : Rx := .cls (fun c => c = '\'' || c = '"')

/-- `[^\s'"]`. -/
def clsValue : Rx := .cls (fun c => !wsRe2 c && !(c = '\'') && !(c = '"'))

/-- `[\s:=]+['"]?([^\s'"]+)`, the tail shared by the assignment patterns. -/
def assignTail : Rx := .cat (rxPlus clsAssign) (.cat (rxOpt clsQuote) (rxPlus clsValue))

/-- `[_-]?` (also written `[-_]?` in some of the patterns). -/
def optDashUnd : Rx := rxOpt (.cls (fun c => c = '_' || c = '-'))

/-- `(?i)(password|passwd|pwd)[\s:=]+['"]?([^\s'"]+)`. -/
def secretPattern1 : Rx :=
  .cat (rxAlts [rxIStr (gs "password"), rxIStr (gs "passwd"), rxIStr (gs "pwd")])
    assignTail

/-- `(?i)(api[_-]?key|apikey)[\s:=]+['"]?([^\s'"]+)`. -/
def secretPattern2 : Rx :=
  .cat (rxAlts [.cat (rxIStr (gs "api")) (.cat optDashUnd (rxIStr (gs "key"))),
                rxIStr (gs "apikey")]) assignTail

/-- `(?i)(secret|token)[\s:=]+['"]?([^\s'"]+)`. -/
def secretPattern3 : Rx :=
  .cat (rxAlts [rxIStr (gs "secret"), rxIStr (gs "token")]) assignTail

/-- `(?i)(auth[_-]?token)[\s:=]+['"]?([^\s'"]+)`. -/
def secretPattern4 : Rx :=
  .cat (.cat (rxIStr (gs "auth")) (.cat optDashUnd (rxIStr (gs "token")))) assignTail

/-- `(?i)bearer\s+([a-zA-Z0-9\-._~+/]+=*)`. -/
def secretPattern5 : Rx :=
  .cat (rxIStr (gs "bearer"))
    (.cat (rxPlus (.cls wsRe2))
      (.cat (rxPlus (.cls (fun c => isAlnumCh c || c = '-' || c = '.' || c = '_' ||
                                    c = '~' || c = '+' || c = '/')))
        (.star (rxChar '='))))

/-- `-----BEGIN\s+(?:RSA|DSA|EC|OPENSSH|ENCRYPTED)?\s*PRIVATE\s+KEY-----`
(case sensitive: no `(?i)` flag). -/
def secretPattern6 : Rx :=
  .cat (rxStr (gs "-----BEGIN"))
    (.cat (rxPlus (.cls wsRe2))
      (.cat (rxOpt (rxAlts [rxStr (gs "RSA"), rxStr (gs "DSA"), rxStr (gs "EC"),
                            rxStr (gs "OPENSSH"), rxStr (gs "ENCRYPTED")]))
        (.cat (.star (.cls wsRe2))
          (.cat (rxStr (gs "PRIVATE"))
            (.cat (rxPlus (.cls wsRe2)) (rxStr (gs "KEY-----")))))))

/-- `(?i)(aws_secret_access_key|aws_access_key_id)[\s:=]+['"]?([^\s'"]+)`. -/
def secretPattern7 : Rx :=
  .cat (rxAlts [rxIStr (gs "aws_secret_access_key"), rxIStr (gs "aws_access_key_id")])
    assignTail

/-- `(?i)(gcp|google)[-_]?(service[-_]?account|credentials)[\s:=]+['"]?([^\s'"]+)`. -/
def secretPattern8 : Rx :=
  .cat (rxAlts [rxIStr (gs "gcp"), rxIStr (gs "google")])
    (.cat optDashUnd
      (.cat (rxAlts [.cat (rxIStr (gs "service")) (.cat optDashUnd (rxIStr (gs "account"))),
                     rxIStr (gs "credentials")]) assignTail))

/-- `(?i)(azure|az)[-_]?(key|secret|token)[\s:=]+['"]?([^\s'"]+)`. -/
def secretPattern9 : Rx :=
  .cat (rxAlts [rxIStr (gs "azure"), rxIStr (gs "az")])
    (.cat optDashUnd
      (.cat (rxAlts [rxIStr (gs "key"), rxIStr (gs "secret"), rxIStr (gs "token")])
        assignTail))

/-- `(?i)[a-z]+://[^:/@\s]+:([^@/\s]+)@`. -/
def secretPattern10 : Rx :=
  .cat (rxPlus (.cls (fun c => isLowerCh c || isUpperCh c)))
    (.cat (rxStr (gs "://"))
      (.cat (rxPlus (.cls (fun c => !(c = ':') && !(c = '/') && !(c = '@') && !wsRe2 c)))
        (.cat (rxChar ':')
          (.cat (rxPlus (.cls (fun c => !(c = '@') && !(c = '/') && !wsRe2 c)))
            (rxChar '@')))))

/-- `(?i)(mongodb|postgresql|mysql|redis)://[^\s]+`. -/
def secretPattern11 : Rx :=
  .cat (rxAlts [rxIStr (gs "mongodb"), rxIStr (gs "postgresql"), rxIStr (gs "mysql"),
                rxIStr (gs "redis")])
    (.cat (rxStr (gs "://")) (rxPlus (.cls (fun c => !wsRe2 c))))

/-- `[A-Za-z0-9_-]`, the JWT segment class. -/
def clsJwt : Rx := .cls (fun c => isAlnumCh c || c = '_' || c = '-')

/-- `eyJ[A-Za-z0-9_-]{10,}\.[A-Za-z0-9_-]{10,}\.[A-Za-z0-9_-]{10,}`
(case sensitive). -/
def secretPattern12 : Rx :=
  .cat (rxStr (gs "eyJ"))
    (.cat (rxAtLeast 10 clsJwt)
      (.cat (rxChar '.')
        (.cat (rxAtLeast 10 clsJwt) (.cat (rxChar '.') (rxAtLeast 10 clsJwt)))))

/-- `(?i)(gh[pousr]_[A-Za-z0-9]{36,})`. -/
def secretPattern13 : Rx :=
  .cat (rxIStr (gs "gh"))
    (.cat (.cls (fun c => c.toLower = 'p' || c.toLower = 'o' || c.toLower = 'u' ||
                          c.toLower = 's' || c.toLower = 'r'))
      (.cat (rxChar '_') (rxAtLeast 36 (.cls isAlnumCh))))

/-- `(?i)(glpat-[A-Za-z0-9\-_]{20,})`. -/
def secretPattern14 : Rx :=
  .cat (rxIStr (gs "glpat-"))
    (rxAtLeast 20 (.cls (fun c => isAlnumCh c || c = '-' || c = '_')))

/-- `(?i)(secret|key|token|password|credential)[\s:=]+['"]?([A-Za-z0-9+/]{32,}={0,2})`. -/
def secretPattern15 : Rx :=
  .cat (rxAlts [rxIStr (gs "secret"), rxIStr (gs "key"), rxIStr (gs "token"),
                rxIStr (gs "password"), rxIStr (gs "credential")])
    (.cat (rxPlus clsAssign)
      (.cat (rxOpt clsQuote)
        (.cat (rxAtLeast 32 (.cls (fun c => isAlnumCh c || c = '+' || c = '/')))
          (rxUpTo 2 (rxChar '=')))))

/-- `(?i)(access_token|refresh_token)[\s:=]+['"]?([^\s'"]+)`. -/
def secretPattern16 : Rx :=
  .cat (rxAlts [rxIStr (gs "access_token"), rxIStr (gs "refresh_token")]) assignTail

/-- `xox[baprs]-[0-9]{10,13}-[0-9]{10,13}-[a-zA-Z0-9]{24,}` (case sensitive). -/
def secretPattern17 : Rx :=
  .cat (rxStr (gs "xox"))
    (.cat (.cls (fun c => c = 'b' || c = 'a' || c = 'p' || c = 'r' || c = 's'))
      (.cat (rxChar '-')
        (.cat (rxRange 10 13 (.cls isDigitCh))
          (.cat (rxChar '-')
            (.cat (rxRange 10 13 (.cls isDigitCh))
              (.cat (rxChar '-') (rxAtLeast 24 (.cls isAlnumCh))))))))

/-- `(?i)(export\s+)?[A-Z_]+_(PASSWORD|SECRET|KEY|TOKEN)=['"]([^'"]+)['"]`. -/
def secretPattern18 : Rx :=
  .cat (rxOpt (.cat (rxIStr (gs "export")) (rxPlus (.cls wsRe2))))
    (.cat (rxPlus (.cls (fun c => isUpperCh c || isLowerCh c || c = '_')))
      (.cat (rxChar '_')
        (.cat (rxAlts [rxIStr (gs "password"), rxIStr (gs "secret"), rxIStr (gs "key"),
                       rxIStr (gs "token")])
          (.cat (rxChar '=')
            (.cat clsQuote
              (.cat (rxPlus (.cls (fun c => !(c = '\'') && !(c = '"')))) clsQuote))))))

/-- `constants.SecretPatterns`, in source order. -/
def SecretPatterns : List Rx :=
  [secretPattern1, secretPattern2, secretPattern3, secretPattern4, secretPattern5,
   secretPattern6, secretPattern7, secretPattern8, secretPattern9, secretPattern10,
   secretPattern11, secretPattern12, secretPattern13, secretPattern14, secretPattern15,
   secretPattern16, secretPattern17, secretPattern18]

/-! ### FilterSecrets (validation.go lines 99-111) -/

/-- The replacement closure inside `FilterSecrets`: a match longer than 20
bytes keeps its first 20 bytes before the marker, a shorter match is replaced
entirely. -/
def redactMatch (m : List Char) : List Char :=
  if 20 < m.length then m.take 20 ++ gs "[REDACTED]" else gs "[REDACTED]"

/-- One `pattern.ReplaceAllStringFunc(result, ...)` step of the loop. -/
def filterOnePass (s : List Char) (r : Rx) : List Char :=
  replaceAllStringFunc r redactMatch s

/-- `FilterSecrets`: apply every secret pattern in order. -/
def FilterSecrets (input : List Char) : List Char :=
  SecretPatterns.foldl filterOnePass input

/-! ## Concrete inputs used by the claims -/

/-- The raw journal text of claim C1. -/
def c1RawText : List Char :=
  gs "Jun 1 00:00:00 h systemd[1]: Starting x.service\nJun 1 00:00:01 h myapp[99]: hello\nJun 1 00:00:02 h systemd[1]: Finished x.service"

/-- The suffix kept by TruncateMessage when the available size is positive:
the last maxSize − 23 bytes of the message (23 = marker length). -/
def keptTail (msg : List Char) (maxSize : ℤ) : List Char :=
  msg.drop (((msg.length : ℤ) - (maxSize - (OutputTruncatedMsg.length : ℤ))).toNat)

/-- The failing input of claim C10: 22 ASCII bytes followed by the three-byte
UTF-8 encoding of the euro sign, 25 bytes in all. -/
def c10Msg : List Char :=
  List.replicate 22 'a' ++ [Char.ofNat 0xE2, Char.ofNat 0x82, Char.ofNat 0xAC]

/-! ## Claims -/

/-- Claim C1, counterexample: on the quoted raw text with service name
x.service and no invocation scoping, the fold of processJournalLine does not
yield the lifecycle sequence the claim states: the line carrying the start
keyword and the service name resets the scan state and is itself discarded
(journal.go lines 241-248), so "Starting x.service" never reaches the
lifecycle list. -/
theorem claimC1_counterexample :
    classifyJournal c1RawText (gs "x.service") false ≠
      ⟨[gs "Starting x.service", gs "Finished x.service"], [gs "hello"]⟩ := by
  decide

/-- Claim C1, amended: classification of the quoted raw text with service
name x.service and no invocation scoping yields the lifecycle sequence
["Finished x.service"] and the output sequence ["hello"]; the start-marker
line only resets the state and is discarded. -/
theorem claimC1_amended :
    classifyJournal c1RawText (gs "x.service") false =
      ⟨[gs "Finished x.service"], [gs "hello"]⟩ := by
  decide

/-- Claim C3: whenever the first network attempt of a delivery returns a
client-side error (HTTP status in [400, 500)), SendNotification returns that
error immediately: exactly one network call is made and no backoff retry
occurs. -/
theorem claimC3 (message : List Char) (responses : Nat → NetResult)
    (st : Nat) (m : List Char) (hval : ValidateMessageSize message = none)
    (h0 : responses 0 = .httpErr st m) (h4 : 400 ≤ st) (h5 : st < 500) :
    SendNotification false message true responses =
      (.requestFailed (.httpErr st m), true, 1) := by
  have hloop : retryLoop responses 0 (MaxHTTPRetries + 1) (.netErr []) =
      (.requestFailed (.httpErr st m), 1) := by
    show retryLoop responses 0 (3 + 1) (.netErr []) = _
    rw [retryLoop, h0]
    simp [isClientError, h4, h5]
  simp [SendNotification, hval, hloop]

/-- Witness for claim C3 at a concrete delivery: a 404 response on the first
attempt is returned at once with a single network call. -/
theorem claimC3_witness :
    SendNotification false (gs "hi") true (fun _ => .httpErr 404 (gs "Not Found")) =
      (.requestFailed (.httpErr 404 (gs "Not Found")), true, 1) :=
  claimC3 (gs "hi") (fun _ => .httpErr 404 (gs "Not Found")) 404 (gs "Not Found")
    (by decide) rfl (by decide) (by decide)

/-- Claim C4: a message of exactly the transport ceiling (4096 bytes) passes
size validation and SendNotification proceeds to the rate limiter, while a
message one byte longer is rejected with a validation error before the rate
limiter is consulted and before any network call. -/
theorem claimC4 (msg1 msg2 : List Char) (rateOk : Bool) (responses : Nat → NetResult)
    (h1 : msg1.length = 4096) (h2 : msg2.length = 4097) :
    ValidateMessageSize msg1 = none ∧
    (SendNotification false msg1 rateOk responses).2.1 = true ∧
    SendNotification false msg2 rateOk responses =
      (.validationFailed (.tooLarge 4097), false, 0) := by
  have hv1 : ValidateMessageSize msg1 = none := by
    simp [ValidateMessageSize, h1, TelegramMaxMessageSize]
  have hv2 : ValidateMessageSize msg2 = some (.tooLarge 4097) := by
    simp [ValidateMessageSize, h2, TelegramMaxMessageSize]
  refine ⟨hv1, ?_, ?_⟩
  · cases rateOk <;> simp [SendNotification, hv1]
  · simp [SendNotification, hv2]

/-- Witness for claim C4 at concrete messages of 4096 and 4097 bytes. -/
theorem claimC4_witness :
    ValidateMessageSize (List.replicate 4096 'a') = none ∧
    (SendNotification false (List.replicate 4096 'a') true (fun _ => .ok)).2.1 = true ∧
    SendNotification false (List.replicate 4097 'a') true (fun _ => .ok) =
      (.validationFailed (.tooLarge 4097), false, 0) :=
  claimC4 (List.replicate 4096 'a') (List.replicate 4097 'a') true (fun _ => .ok)
    (by rw [List.length_replicate]) (by rw [List.length_replicate])

/-- Claim C5, counterexample: a tryTake call that returns false does not in
general leave the bucket state unchanged: on the bucket with 0 tokens,
capacity 10, refill rate 1 token/s and last refill at time 0, a tryTake at
time 1/2 returns false, yet the token level becomes 1/2 and the last-refill
timestamp becomes 1/2 (the lazy refill inside tryTake mutates both before
the availability test). -/
theorem claimC5_counterexample :
    (tryTake ⟨0, 10, 1, 0⟩ (1/2)).1 = false ∧
    (tryTake ⟨0, 10, 1, 0⟩ (1/2)).2.tokens ≠ 0 ∧
    (tryTake ⟨0, 10, 1, 0⟩ (1/2)).2.lastRefill ≠ 0 := by
  norm_num [tryTake, refill]

/-- Claim C5, amended: whenever tryTake finds fewer than one token after the
lazy refill, it returns false and performs no deduction: the resulting state
is exactly the refilled state, whose timestamp is the call instant and whose
capacity and rate are unchanged (the refill itself may raise the token level
and always advances the timestamp). -/
theorem claimC5_amended (tb : TokenBucket) (now : ℚ)
    (h : (refill tb now).tokens < 1) :
    tryTake tb now = (false, refill tb now) ∧
    (refill tb now).lastRefill = now ∧
    (refill tb now).maxTokens = tb.maxTokens ∧
    (refill tb now).refillRate = tb.refillRate := by
  refine ⟨?_, rfl, rfl, rfl⟩
  unfold tryTake
  rw [if_neg (not_le.mpr h)]

/-- Witness for the amended claim C5 at the concrete bucket of the
counterexample. -/
theorem claimC5_amended_witness :
    tryTake ⟨0, 10, 1, 0⟩ (1/2) = (false, refill ⟨0, 10, 1, 0⟩ (1/2)) ∧
    (refill (⟨0, 10, 1, 0⟩ : TokenBucket) (1/2)).lastRefill = 1/2 ∧
    (refill (⟨0, 10, 1, 0⟩ : TokenBucket) (1/2)).maxTokens =
      (⟨0, 10, 1, 0⟩ : TokenBucket).maxTokens ∧
    (refill (⟨0, 10, 1, 0⟩ : TokenBucket) (1/2)).refillRate =
      (⟨0, 10, 1, 0⟩ : TokenBucket).refillRate :=
  claimC5_amended ⟨0, 10, 1, 0⟩ (1/2) (by norm_num [refill])

/-- One refill keeps the token level within [0, capacity]. -/
theorem refill_inv (tb : TokenBucket) (now : ℚ) (h0 : 0 ≤ tb.tokens)
    (h1 : tb.tokens ≤ tb.maxTokens) (h2 : tb.lastRefill ≤ now)
    (h3 : 0 ≤ tb.refillRate) :
    0 ≤ (refill tb now).tokens ∧ (refill tb now).tokens ≤ (refill tb now).maxTokens := by
  unfold refill
  have ht : 0 ≤ tb.tokens + (now - tb.lastRefill) * tb.refillRate :=
    add_nonneg h0 (mul_nonneg (by linarith) h3)
  by_cases hc : tb.maxTokens < tb.tokens + (now - tb.lastRefill) * tb.refillRate
  · simp only [hc, if_true]
    exact ⟨h0.trans h1, le_refl _⟩
  · simp only [hc, if_false]
    exact ⟨ht, not_lt.mp hc⟩

/-- One tryTake keeps the token level within [0, capacity]. -/
theorem tryTake_inv (tb : TokenBucket) (now : ℚ) (h0 : 0 ≤ tb.tokens)
    (h1 : tb.tokens ≤ tb.maxTokens) (h2 : tb.lastRefill ≤ now)
    (h3 : 0 ≤ tb.refillRate) :
    0 ≤ (tryTake tb now).2.tokens ∧
    (tryTake tb now).2.tokens ≤ (tryTake tb now).2.maxTokens := by
  obtain ⟨ha, hb⟩ := refill_inv tb now h0 h1 h2 h3
  unfold tryTake
  by_cases hc : 1 ≤ (refill tb now).tokens
  · simp only [hc, if_true]
    exact ⟨by linarith, by simpa using by linarith⟩
  · simp only [hc, if_false]
    exact ⟨ha, hb⟩

/-- A bucket operation leaves capacity and rate unchanged and sets the
refill timestamp to its instant. -/
theorem bucketStep_frame (tb : TokenBucket) (op : BucketOp) :
    (bucketStep tb op).maxTokens = tb.maxTokens ∧
    (bucketStep tb op).refillRate = tb.refillRate ∧
    (bucketStep tb op).lastRefill = opTime op := by
  cases op with
  | refillOp now => exact ⟨rfl, rfl, rfl⟩
  | tryTakeOp now =>
    unfold bucketStep tryTake
    by_cases hc : 1 ≤ (refill tb now).tokens
    · simp only [hc, if_true]
      exact ⟨rfl, rfl, rfl⟩
    · simp only [hc, if_false]
      exact ⟨rfl, rfl, rfl⟩

/-- The invariant 0 ≤ tokens ≤ capacity holds after every prefix of a valid
operation sequence. -/
theorem bucketRun_inv (ops : List BucketOp) : ∀ (tb : TokenBucket) (n : Nat),
    0 ≤ tb.refillRate → 0 ≤ tb.tokens → tb.tokens ≤ tb.maxTokens →
    TimesValid tb.lastRefill ops →
    0 ≤ (bucketRun tb (ops.take n)).tokens ∧
    (bucketRun tb (ops.take n)).tokens ≤ (bucketRun tb (ops.take n)).maxTokens := by
  induction ops with
  | nil =>
    intro tb n _ h0 h1 _
    simpa [bucketRun] using ⟨h0, h1⟩
  | cons op rest ih =>
    intro tb n hr h0 h1 htv
    cases n with
    | zero => simpa [bucketRun] using ⟨h0, h1⟩
    | succ m =>
      obtain ⟨hmax, hrate, hlast⟩ := bucketStep_frame tb op
      have hstep : 0 ≤ (bucketStep tb op).tokens ∧
          (bucketStep tb op).tokens ≤ (bucketStep tb op).maxTokens := by
        cases op with
        | refillOp now =>
          simpa [bucketStep] using refill_inv tb now h0 h1 htv.1 hr
        | tryTakeOp now =>
          simpa [bucketStep] using tryTake_inv tb now h0 h1 htv.1 hr
      have := ih (bucketStep tb op) m (hrate ▸ hr) hstep.1 (hmax ▸ hstep.2)
        (by rw [hlast]; exact htv.2)
      simpa [bucketRun, List.take_succ_cons] using this

/-- Claim C6: for every bucket created by NewTokenBucket (non-negative
capacity, non-negative refill interval) and every sequence of refill and
tryTake operations with non-negative elapsed time between them, the
invariant 0 ≤ tokens ≤ capacity holds after each operation. -/
theorem claimC6 (maxTokens : ℤ) (refillRateSeconds t0 : ℚ) (ops : List BucketOp)
    (n : Nat) (hm : 0 ≤ maxTokens) (hs : 0 ≤ refillRateSeconds)
    (ht : TimesValid t0 ops) :
    0 ≤ (bucketRun (NewTokenBucket maxTokens refillRateSeconds t0) (ops.take n)).tokens ∧
    (bucketRun (NewTokenBucket maxTokens refillRateSeconds t0) (ops.take n)).tokens ≤
      (bucketRun (NewTokenBucket maxTokens refillRateSeconds t0) (ops.take n)).maxTokens := by
  have h1 : 0 ≤ (NewTokenBucket maxTokens refillRateSeconds t0).refillRate := by
    simp only [NewTokenBucket]
    exact one_div_nonneg.mpr hs
  have h2 : 0 ≤ (NewTokenBucket maxTokens refillRateSeconds t0).tokens := by
    simp only [NewTokenBucket]
    exact_mod_cast hm
  exact bucketRun_inv ops _ n h1 h2 (le_refl _) ht

/-- Witness for claim C6 on the Telegram limiter parameters (capacity 10,
one token per second) with a concrete operation sequence. -/
theorem claimC6_witness :
    0 ≤ (bucketRun (NewTokenBucket 10 1 0)
      ([BucketOp.tryTakeOp 0, BucketOp.refillOp 2, BucketOp.tryTakeOp 2].take 3)).tokens ∧
    (bucketRun (NewTokenBucket 10 1 0)
      ([BucketOp.tryTakeOp 0, BucketOp.refillOp 2, BucketOp.tryTakeOp 2].take 3)).tokens ≤
    (bucketRun (NewTokenBucket 10 1 0)
      ([BucketOp.tryTakeOp 0, BucketOp.refillOp 2, BucketOp.tryTakeOp 2].take 3)).maxTokens :=
  claimC6 10 1 0 [BucketOp.tryTakeOp 0, BucketOp.refillOp 2, BucketOp.tryTakeOp 2] 3
    (by norm_num) (by norm_num) (by norm_num [TimesValid, opTime])

/-- The replace-all scan produces exactly the concatenation of its gap/match
decomposition with the replacement function applied to each match. -/
theorem replaceAllAux_eq_segments (r : Rx) (f : List Char → List Char) :
    ∀ (fuel : Nat) (s : List Char),
      replaceAllAux r f fuel s =
        ((segmentsAux r fuel s).map (Sum.elim id f)).flatten := by
  intro fuel
  induction fuel with
  | zero => intro s; simp [replaceAllAux, segmentsAux]
  | succ n ih =>
    intro s
    cases hfind : rxFind (rxFuel r s) r s with
    | none => simp [replaceAllAux, segmentsAux, hfind]
    | some q =>
      obtain ⟨i, k⟩ := q
      by_cases hk : k = 0
      · subst hk
        cases hdrop : s.drop i with
        | nil => simp [replaceAllAux, segmentsAux, hfind, hdrop]
        | cons c rest =>
          simp [replaceAllAux, segmentsAux, hfind, hdrop, ih]
      · simp [replaceAllAux, segmentsAux, hfind, hk, ih]

/-- Claim C7: each redaction pass decomposes its input into unmatched gaps
and pattern matches, and replaces every match of length at most 20 by
exactly the redaction marker and every longer match by its first 20
characters followed by the marker. -/
theorem claimC7 (p : Rx) (s : List Char) :
    filterOnePass s p =
      ((rxSegments p s).map (fun seg =>
        match seg with
        | .inl gap => gap
        | .inr m =>
          if m.length ≤ 20 then gs "[REDACTED]"
          else m.take 20 ++ gs "[REDACTED]")).flatten := by
  have h := replaceAllAux_eq_segments p redactMatch (s.length + 1) s
  have hfun : (Sum.elim id redactMatch : List Char ⊕ List Char → List Char) =
      fun seg => match seg with
        | .inl gap => gap
        | .inr m =>
          if m.length ≤ 20 then gs "[REDACTED]"
          else m.take 20 ++ gs "[REDACTED]" := by
    funext seg
    cases seg with
    | inl gap => rfl
    | inr m =>
      simp only [Sum.elim_inr, redactMatch]
      by_cases hm : 20 < m.length
      · rw [if_pos hm, if_neg (not_le.mpr hm)]
      · rw [if_neg hm, if_pos (not_lt.mp hm)]
  unfold filterOnePass replaceAllStringFunc rxSegments
  rw [h, hfun]

/-- If a pattern matches nowhere in `s`, its replace-all pass returns `s`
unchanged. -/
theorem filterOnePass_of_no_match (p : Rx) (s : List Char)
    (h : rxContainsMatch p s = false) : filterOnePass s p = s := by
  unfold rxContainsMatch at h
  unfold filterOnePass replaceAllStringFunc
  cases hf : rxFind (rxFuel p s) p s with
  | none => simp [replaceAllAux, hf]
  | some q => rw [hf] at h; simp at h

/-- Folding redaction passes over patterns none of which matches returns
the input. -/
theorem foldl_no_match : ∀ (ps : List Rx) (s : List Char),
    (∀ p ∈ ps, rxContainsMatch p s = false) →
    ps.foldl filterOnePass s = s := by
  intro ps
  induction ps with
  | nil => intro s _; rfl
  | cons p rest ih =>
    intro s h
    rw [List.foldl_cons, filterOnePass_of_no_match p s (h p (by simp))]
    exact ih s (fun q hq => h q (by simp [hq]))

/-- Claim C2, counterexample: the output of FilterSecrets can still contain a
substring matching a configured pattern.  Filtering "password=aaaaaaaaaaaa"
replaces the whole 21-character match but keeps its first 20 characters
"password=aaaaaaaaaaa", and the result "password=aaaaaaaaaaa[REDACTED]"
matches the first configured pattern again. -/
theorem claimC2_counterexample :
    secretPattern1 ∈ SecretPatterns ∧
    rxContainsMatch secretPattern1 (FilterSecrets (gs "password=aaaaaaaaaaaa")) = true :=
  ⟨by simp [SecretPatterns], by decide⟩

/-- Claim C2, amended: the redaction invariant holds in the best-effort sense
only: when no configured pattern matches the input, FilterSecrets returns it
unchanged and the output contains no substring matching any pattern.  In
general a replaced match longer than 20 characters keeps its first 20
characters, which may itself still match a pattern (see the
counterexample). -/
theorem claimC2_amended (s : List Char)
    (h : ∀ p ∈ SecretPatterns, rxContainsMatch p s = false) :
    FilterSecrets s = s ∧
    ∀ p ∈ SecretPatterns, rxContainsMatch p (FilterSecrets s) = false := by
  have heq : FilterSecrets s = s := foldl_no_match SecretPatterns s h
  exact ⟨heq, by rw [heq]; exact h⟩

/-- Witness for the amended claim C2 on a concrete input no pattern
matches. -/
theorem claimC2_amended_witness :
    FilterSecrets (gs "hello") = gs "hello" ∧
    ∀ p ∈ SecretPatterns, rxContainsMatch p (FilterSecrets (gs "hello")) = false :=
  claimC2_amended (gs "hello") (by decide)

/-- A well-formed UTF-8 encoding at the head is 1 to 4 bytes long and does
not overrun the list. -/
theorem utf8Size_bounds (s : List Char) (n : Nat) (h : utf8Size s = some n) :
    1 ≤ n ∧ n ≤ s.length := by
  cases s with
  | nil => simp [utf8Size] at h
  | cons c rest =>
    simp only [utf8Size] at h
    repeat' split at h
    all_goals simp_all
    all_goals omega

/-- The repair scan does not depend on the fuel once the fuel exceeds the
input length. -/
theorem toValidUTF8Aux_fuel : ∀ (f1 f2 : Nat) (inv : Bool) (s : List Char),
    s.length < f1 → s.length < f2 →
    toValidUTF8Aux f1 inv s = toValidUTF8Aux f2 inv s := by
  intro f1
  induction f1 with
  | zero => intro f2 inv s h1 _; exact absurd h1 (Nat.not_lt_zero _)
  | succ m ih =>
    intro f2 inv s h1 h2
    cases f2 with
    | zero => exact absurd h2 (Nat.not_lt_zero _)
    | succ m2 =>
      cases s with
      | nil => rfl
      | cons c rest =>
        cases hu : utf8Size (c :: rest) with
        | none =>
          simp only [List.length_cons] at h1 h2
          simp only [toValidUTF8Aux, hu]
          rw [ih m2 true rest (by omega) (by omega)]
        | some k =>
          obtain ⟨hk1, hk2⟩ := utf8Size_bounds _ _ hu
          simp only [List.length_cons] at h1 h2 hk2
          have hlen : ((c :: rest).drop k).length < m := by
            simp only [List.length_drop, List.length_cons]
            omega
          have hlen2 : ((c :: rest).drop k).length < m2 := by
            simp only [List.length_drop, List.length_cons]
            omega
          simp only [toValidUTF8Aux, hu]
          rw [ih m2 false ((c :: rest).drop k) hlen hlen2]

/-- Prepending pure-ASCII text commutes with the UTF-8 repair. -/
theorem toValidUTF8Aux_ascii : ∀ (a : List Char) (f : Nat) (t : List Char),
    (∀ c ∈ a, bval c < 0x80) → (a ++ t).length < f →
    toValidUTF8Aux f false (a ++ t) = a ++ toValidUTF8Aux (t.length + 1) false t := by
  intro a
  induction a with
  | nil =>
    intro f t _ hf
    simp only [List.nil_append]
    exact toValidUTF8Aux_fuel f (t.length + 1) false t hf (by omega)
  | cons c a ih =>
    intro f t hascii hf
    cases f with
    | zero => exact absurd hf (Nat.not_lt_zero _)
    | succ m =>
      have hc : bval c < 0x80 := hascii c (by simp)
      have hu : utf8Size (c :: (a ++ t)) = some 1 := by
        simp only [utf8Size]
        rw [if_pos hc]
      simp only [List.cons_append, toValidUTF8Aux, List.append_eq, hu]
      show [c] ++ toValidUTF8Aux m false (a ++ t) =
        c :: (a ++ toValidUTF8Aux (t.length + 1) false t)
      rw [ih m t (fun d hd => hascii d (by simp [hd]))
        (by simp only [List.cons_append, List.length_cons] at hf; omega)]
      rfl

/-- `strings.ToValidUTF8` is the identity on text whose prefix is ASCII
followed by any tail: the ASCII prefix passes through unrepaired. -/
theorem toValidUTF8_ascii_append (a t : List Char) (h : ∀ c ∈ a, bval c < 0x80) :
    toValidUTF8 (a ++ t) = a ++ toValidUTF8 t := by
  unfold toValidUTF8
  exact toValidUTF8Aux_ascii a ((a ++ t).length + 1) t h (by omega)

/-- The repair is the identity on well-formed UTF-8. -/
theorem toValidUTF8Aux_of_valid : ∀ (f : Nat) (s : List Char),
    s.length < f → validUTF8Aux f s = true → toValidUTF8Aux f false s = s := by
  intro f
  induction f with
  | zero => intro s h1 _; exact absurd h1 (Nat.not_lt_zero _)
  | succ m ih =>
    intro s hle hv
    cases s with
    | nil => rfl
    | cons c rest =>
      simp only [validUTF8Aux] at hv
      cases hu : utf8Size (c :: rest) with
      | none => rw [hu] at hv; simp at hv
      | some k =>
        rw [hu] at hv
        obtain ⟨hk1, hk2⟩ := utf8Size_bounds _ _ hu
        simp only [toValidUTF8Aux, hu]
        have hlen : ((c :: rest).drop k).length < m := by
          simp only [List.length_drop, List.length_cons] at *
          omega
        rw [ih _ hlen hv]
        exact List.take_append_drop k (c :: rest)

/-- `strings.ToValidUTF8` is the identity on valid UTF-8 text. -/
theorem toValidUTF8_of_valid (s : List Char) (h : validUTF8 s = true) :
    toValidUTF8 s = s := by
  unfold validUTF8 at h
  exact toValidUTF8Aux_of_valid (s.length + 1) s (by omega) h

/-- Claim C8, counterexample: the claim fails for a configured maximum not
exceeding the marker length: truncating 24 bytes with maxSize 23 returns the
first 23 bytes of the input — a prefix, not the marker followed by a suffix
(the result does not even begin with the marker). -/
theorem claimC8_counterexample :
    TruncateMessage (List.replicate 24 'a') 23 = some (List.replicate 23 'a') ∧
    strStarts (List.replicate 23 'a') OutputTruncatedMsg = false := by
  decide

/-- Claim C8, amended: for every text longer than the configured maximum and
every maximum of at least 24 (the marker length plus one), TruncateMessage
returns the fixed truncation marker followed by the UTF-8 repair of the
suffix of length maxSize − 23 of the original text; when that suffix is
valid UTF-8 (for instance for ASCII text) it is exactly that suffix of the
original.  For smaller maxima the function returns a prefix with no marker
(see the counterexample). -/
theorem claimC8_amended (msg : List Char) (maxSize : ℤ)
    (hlen : maxSize < (msg.length : ℤ)) (hmax : 24 ≤ maxSize) :
    TruncateMessage msg maxSize =
      some (OutputTruncatedMsg ++ toValidUTF8 (keptTail msg maxSize)) ∧
    (validUTF8 (keptTail msg maxSize) = true →
      TruncateMessage msg maxSize =
        some (OutputTruncatedMsg ++ keptTail msg maxSize)) := by
  have hm23 : (OutputTruncatedMsg.length : ℤ) = 23 := by decide
  have hfirst : TruncateMessage msg maxSize =
      some (OutputTruncatedMsg ++ toValidUTF8 (keptTail msg maxSize)) := by
    unfold TruncateMessage goSliceFrom
    rw [if_neg (not_le.mpr hlen), if_neg (by rw [hm23]; omega),
      if_pos (by rw [hm23]; constructor <;> omega)]
    show some (toValidUTF8 (OutputTruncatedMsg ++
        msg.drop (((msg.length : ℤ) - (maxSize - (OutputTruncatedMsg.length : ℤ))).toNat))) =
      some (OutputTruncatedMsg ++ toValidUTF8 (keptTail msg maxSize))
    rw [toValidUTF8_ascii_append OutputTruncatedMsg _ (by decide)]
    rfl
  refine ⟨hfirst, fun hvalid => ?_⟩
  rw [hfirst, toValidUTF8_of_valid _ hvalid]

/-- Witness for the amended claim C8: a 30-byte ASCII text truncated to 25
bytes keeps the marker plus its last two bytes. -/
theorem claimC8_amended_witness :
    TruncateMessage (List.replicate 30 'a') 25 =
      some (OutputTruncatedMsg ++ toValidUTF8 (keptTail (List.replicate 30 'a') 25)) ∧
    (validUTF8 (keptTail (List.replicate 30 'a') 25) = true →
      TruncateMessage (List.replicate 30 'a') 25 =
        some (OutputTruncatedMsg ++ keptTail (List.replicate 30 'a') 25)) :=
  claimC8_amended (List.replicate 30 'a') 25 (by decide) (by decide)

/-- Claim C10, evaluation of the code at the failing input: truncating the
25-byte message to maxSize 24 cuts the euro sign, the repair replaces the
lone continuation byte by the three-byte replacement character, and the
result is 26 bytes — longer than the 24-byte limit the function is
documented to enforce. -/
theorem claimC10_bug :
    c10Msg.length = 25 ∧
    TruncateMessage c10Msg 24 = some (OutputTruncatedMsg ++ replacementBytes) ∧
    (OutputTruncatedMsg ++ replacementBytes).length = 26 := by
  decide

/-- Unfolding of the class alternation. -/
theorem chClass_cons (c : Char) (rest : List Char) :
    chClass (c :: rest) = RegularExpression.char c + chClass rest := rfl

/-- The class alternation accepts exactly the one-character strings over its
member list. -/
theorem chClass_rmatch (cs : List Char) (x : List Char) :
    (chClass cs).rmatch x = true ↔ ∃ c ∈ cs, x = [c] := by
  induction cs with
  | nil => simp [chClass, RegularExpression.zero_rmatch]
  | cons c rest ih =>
    rw [chClass_cons]
    constructor
    · intro h
      rcases (RegularExpression.add_rmatch_iff _ _ _).mp h with h1 | h2
      · exact ⟨c, by simp, (RegularExpression.char_rmatch_iff _ _).mp h1⟩
      · obtain ⟨d, hd, hx⟩ := ih.mp h2
        exact ⟨d, by simp [hd], hx⟩
    · rintro ⟨d, hd, rfl⟩
      apply (RegularExpression.add_rmatch_iff _ _ _).mpr
      rcases List.mem_cons.mp hd with rfl | hd2
      · exact Or.inl ((RegularExpression.char_rmatch_iff _ _).mpr rfl)
      · exact Or.inr (ih.mpr ⟨d, hd2, rfl⟩)

/-- Unfolding of the literal regular expression. -/
theorem litRE_cons (c : Char) (rest : List Char) :
    litRE (c :: rest) = RegularExpression.char c * litRE rest := rfl

/-- The literal regular expression accepts exactly its string. -/
theorem litRE_rmatch (s : List Char) : ∀ (x : List Char),
    (litRE s).rmatch x = true ↔ x = s := by
  induction s with
  | nil =>
    intro x
    exact RegularExpression.one_rmatch_iff x
  | cons c rest ih =>
    intro x
    rw [litRE_cons]
    constructor
    · intro h
      obtain ⟨t, u, hx, ht, hu⟩ := (RegularExpression.mul_rmatch_iff _ _ _).mp h
      rw [(RegularExpression.char_rmatch_iff _ _).mp ht] at hx
      rw [(ih u).mp hu] at hx
      simpa using hx
    · rintro rfl
      exact (RegularExpression.mul_rmatch_iff _ _ _).mpr ⟨[c], rest, rfl,
        (RegularExpression.char_rmatch_iff _ _).mpr rfl, (ih rest).mpr rfl⟩

/-- Flattening singletons reproduces the list. -/
theorem flatten_map_singleton (x : List Char) :
    (x.map (fun c => [c])).flatten = x := by
  induction x with
  | nil => rfl
  | cons c xs ih => simp [ih]

/-- The starred class accepts exactly the strings over its member list. -/
theorem starClass_rmatch (cs : List Char) (x : List Char) :
    (chClass cs).star.rmatch x = true ↔ ∀ c ∈ x, c ∈ cs := by
  rw [RegularExpression.star_rmatch_iff]
  constructor
  · rintro ⟨S, rfl, hS⟩ c hc
    rw [List.mem_flatten] at hc
    obtain ⟨u, huS, hcu⟩ := hc
    obtain ⟨-, hu⟩ := hS u huS
    obtain ⟨d, hd, rfl⟩ := (chClass_rmatch cs u).mp hu
    rw [List.mem_singleton] at hcu
    exact hcu ▸ hd
  · intro h
    refine ⟨x.map (fun c => [c]), (flatten_map_singleton x).symm, ?_⟩
    intro u hu
    obtain ⟨c, hc, rfl⟩ := List.mem_map.mp hu
    exact ⟨by simp, (chClass_rmatch cs [c]).mpr ⟨c, h c hc, rfl⟩⟩

/-- Language of the service-name pattern: a non-empty run of class characters
followed by the literal ".service". -/
theorem serviceNameRE_rmatch (x : List Char) :
    serviceNameRE.rmatch x = true ↔
      ∃ t, x = t ++ gs ".service" ∧ t ≠ [] ∧ ∀ c ∈ t, c ∈ allowedChars := by
  unfold serviceNameRE
  constructor
  · intro h
    obtain ⟨t, u, hx, ht, hu⟩ := (RegularExpression.mul_rmatch_iff _ _ _).mp h
    obtain ⟨a, b, hab, ha, hb⟩ := (RegularExpression.mul_rmatch_iff _ _ _).mp ht
    obtain ⟨c, hc, rfl⟩ := (chClass_rmatch _ _).mp ha
    have hball := (starClass_rmatch _ _).mp hb
    rw [(litRE_rmatch (gs ".service") u).mp hu] at hx
    refine ⟨[c] ++ b, by rw [hx, hab], by simp, ?_⟩
    intro d hd
    rcases List.mem_append.mp hd with h1 | h2
    · rw [List.mem_singleton] at h1
      exact h1 ▸ hc
    · exact hball d h2
  · rintro ⟨t, rfl, htne, hall⟩
    obtain ⟨c, ts, rfl⟩ : ∃ c ts, t = c :: ts := by
      cases t with
      | nil => exact absurd rfl htne
      | cons c ts => exact ⟨c, ts, rfl⟩
    apply (RegularExpression.mul_rmatch_iff _ _ _).mpr
    refine ⟨c :: ts, gs ".service", rfl, ?_, (litRE_rmatch _ _).mpr rfl⟩
    apply (RegularExpression.mul_rmatch_iff _ _ _).mpr
    exact ⟨[c], ts, rfl, (chClass_rmatch _ _).mpr ⟨c, hall c (by simp), rfl⟩,
      (starClass_rmatch _ _).mpr (fun d hd => hall d (by simp [hd]))⟩

/-- Every character the pattern class admits passes the control, ASCII and
shell-metacharacter checks. -/
theorem allowedChars_pass : ∀ c ∈ allowedChars,
    badControl c = false ∧ nonAsciiCh c = false ∧ c ∉ dangerousChars := by
  decide

/-- The characters of the literal suffix are in the class. -/
theorem serviceSuffix_allowed : ∀ c ∈ gs ".service", c ∈ allowedChars := by
  decide

/-- Claim C9: ValidateServiceName returns nil exactly when the name is
non-empty, at most 256 bytes long, and matches the anchored pattern
`[a-zA-Z0-9:_.@-]+\.service` — the control-character, non-ASCII and
shell-metacharacter rejections never fire on a name the pattern and length
checks accept. -/
theorem claimC9 (name : List Char) :
    ValidateServiceName name = none ↔
      name ≠ [] ∧ name.length ≤ 256 ∧ serviceNameRE.rmatch name = true := by
  unfold ValidateServiceName
  constructor
  · intro h
    by_cases h1 : name = []
    · rw [if_pos h1] at h
      exact absurd h (by simp)
    rw [if_neg h1] at h
    by_cases h2 : 256 < name.length
    · rw [if_pos h2] at h
      exact absurd h (by simp)
    rw [if_neg h2] at h
    by_cases h3 : name.any badControl = true
    · rw [if_pos h3] at h
      exact absurd h (by simp)
    rw [if_neg h3] at h
    by_cases h4 : name.any nonAsciiCh = true
    · rw [if_pos h4] at h
      exact absurd h (by simp)
    rw [if_neg h4] at h
    cases hfind : dangerousChars.find? (fun d => name.contains d) with
    | some d =>
      rw [hfind] at h
      exact absurd h (by simp)
    | none =>
      rw [hfind] at h
      by_cases h5 : serviceNameRE.rmatch name = true
      · exact ⟨h1, not_lt.mp h2, h5⟩
      · rw [if_neg h5] at h
        exact absurd h (by simp)
  · rintro ⟨hne, hlen, hmatch⟩
    have hallx : ∀ c ∈ name, c ∈ allowedChars := by
      obtain ⟨t, heq, -, hall⟩ := (serviceNameRE_rmatch name).mp hmatch
      intro c hc
      rw [heq] at hc
      rcases List.mem_append.mp hc with hc1 | hc2
      · exact hall c hc1
      · exact serviceSuffix_allowed c hc2
    rw [if_neg hne, if_neg (not_lt.mpr hlen)]
    have hctrl : name.any badControl = false :=
      List.any_eq_false.mpr fun c hc => by
        simp [(allowedChars_pass c (hallx c hc)).1]
    have hascii : name.any nonAsciiCh = false :=
      List.any_eq_false.mpr fun c hc => by
        simp [(allowedChars_pass c (hallx c hc)).2.1]
    rw [if_neg (by simp [hctrl]), if_neg (by simp [hascii])]
    have hfind : dangerousChars.find? (fun d => name.contains d) = none :=
      List.find?_eq_none.mpr fun d hd => by
        intro hcontains
        have hmem : d ∈ name := List.elem_iff.mp hcontains
        exact (allowedChars_pass d (hallx d hmem)).2.2 hd
    rw [hfind, if_pos hmatch]

end TelegramNotifier
